import Mathlib

/-!
Shallow embedding of `src/closewatcher.ts` (keithamus/browser-support).

The core is a per-window close-watcher manager.  Since every method of the
source looks the manager up by the (single) global `window`, the embedding
models the state of that one manager directly:

* `groups` mirrors `CloseWatcherManager.groups`, a list of groups, each a
  list of watcher identifiers (the source stores object references; fresh
  `Nat` identifiers stand for fresh `InternalCloseWatcher` objects);
* `allowedNumberOfGroups` and `nextUserInteractionAllowsAnewGroup` mirror
  the fields of the same names;
* `runningCancelAction` is the set of watcher ids whose per-object
  `isRunningCancelAction` flag is `true`.

User callbacks are modelled by an environment: `cancelReturns` gives the
boolean returned by a watcher's `cancelAction`, and `defaultView` tells
whether `document.defaultView` is non-null.  Invocations of the callbacks
are recorded in an event trace.
-/

namespace CloseWatcherModel

/-- Observable events: `requestClose()` entered, `cancelAction` invoked,
`closeAction` invoked, each tagged with the watcher id. -/
inductive Ev where
  | requestCloseCalled (w : Nat)
  | cancelCalled (w : Nat)
  | closeCalled (w : Nat)
deriving DecidableEq, Repr

/-- State of the (single) `CloseWatcherManager`, together with the
per-watcher `isRunningCancelAction` flags. -/
structure St where
  groups : List (List Nat)
  allowedNumberOfGroups : Nat
  nextUserInteractionAllowsAnewGroup : Bool
  runningCancelAction : List Nat
deriving DecidableEq, Repr

/-- External world: what each watcher's `cancelAction` returns, and whether
`document.defaultView` is present. -/
structure Env where
  cancelReturns : Nat → Bool
  defaultView : Bool

/-- The manager state right after `new CloseWatcherManager(window)` is first
constructed: no groups, `allowedNumberOfGroups = 1`, flag armed. -/
def initSt : St := ⟨[], 1, true, []⟩

/-- `InternalCloseWatcher`'s `isActive` getter: true iff some group of the
manager contains the watcher (`group.includes(this)`). -/
def isActive (s : St) (w : Nat) : Bool :=
  s.groups.any (fun g => g.contains w)

/-- The `InternalCloseWatcher` constructor's group-placement step: if
`groups.length < allowedNumberOfGroups`, push a fresh singleton group,
otherwise push the watcher onto the last group (`groups.at(-1)!.push(this)`). -/
def register (s : St) (w : Nat) : St :=
  if s.groups.length < s.allowedNumberOfGroups then
    { s with groups := s.groups ++ [[w]] }
  else
    { s with groups := s.groups.dropLast ++ [s.groups.getLastD [] ++ [w]] }

/-- The loop body of `destroy()`: JavaScript `for (const group of
manager.groups)` iterates by index over the live array; removing an emptied
group (`manager.groups.splice(...)`) shifts later groups left, so the index
step skips the group that follows a pruned one.  `i` is the iterator index. -/
def destroyLoop (w : Nat) (gs : List (List Nat)) (i : Nat) : List (List Nat) :=
  if h : i < gs.length then
    let g := gs.getD i []
    let g' := if g.contains w then g.erase w else g
    if g'.isEmpty then destroyLoop w (gs.eraseIdx i) (i + 1)
    else destroyLoop w (gs.set i g') (i + 1)
  else gs
termination_by gs.length - i
decreasing_by
  all_goals simp [List.length_eraseIdx, h]
  all_goals omega

/-- `InternalCloseWatcher.destroy()`. -/
def destroy (s : St) (w : Nat) : St :=
  { s with groups := destroyLoop w s.groups 0 }

/-- Structural restatement of `destroyLoop` on the not-yet-visited suffix of
the group list: visiting a group erases `w` from it; if it thereby becomes
empty it is dropped and the following group is skipped (the index moved past
it when the live array shifted). -/
def destroyRest (w : Nat) : List (List Nat) → List (List Nat)
  | [] => []
  | g :: rest =>
    let g' := if g.contains w then g.erase w else g
    if g'.isEmpty then
      match rest with
      | [] => []
      | g2 :: rest2 => g2 :: destroyRest w rest2
    else g' :: destroyRest w rest

/-- `InternalCloseWatcher.close()`: if active and `document.defaultView` is
present, destroy and then invoke `closeAction`; otherwise do nothing. -/
def close (env : Env) (s : St) (w : Nat) : St × List Ev :=
  if isActive s w && env.defaultView then
    (destroy s w, [Ev.closeCalled w])
  else (s, [])

/-- Result of `requestClose()`: new state, event trace, the JavaScript
return value, and whether the watcher was removed from the group array
(i.e. whether `close()` actually ran `destroy()`) — the latter is what the
dispatcher's live iteration observes on the array it walks. -/
structure RCOut where
  st : St
  evs : List Ev
  ret : Bool
  removed : Bool
deriving Repr

/-- `InternalCloseWatcher.requestClose()`: if active and not already running
the cancel action, set the guard, run `cancelAction`, and on a `false`
return run `close()`; always return `true`. -/
def requestClose (env : Env) (s : St) (w : Nat) : RCOut :=
  if isActive s w && !(s.runningCancelAction.contains w) then
    let s1 : St := { s with runningCancelAction := w :: s.runningCancelAction }
    if !(env.cancelReturns w) then
      let c := close env s1 w
      ⟨c.1, Ev.requestCloseCalled w :: Ev.cancelCalled w :: c.2, true, !c.2.isEmpty⟩
    else ⟨s1, [Ev.requestCloseCalled w, Ev.cancelCalled w], true, false⟩
  else ⟨s, [Ev.requestCloseCalled w], true, false⟩

/-- The `for (const closeWatcher of (...).reverse())` loop of
`processCloseWatchers`: `arr` is the contents of the live array being
iterated (the in-place-reversed last group), `i` the iterator index.  A
watcher that closes itself is spliced out of that same array, so the
iterator sees the shortened array (`arr.erase w`). -/
def processLoop (env : Env) (s : St) (arr : List Nat) (i : Nat) : St × List Ev × Bool :=
  if h : i < arr.length then
    let w := arr.getD i 0
    let r := requestClose env s w
    if r.ret then
      let rest := processLoop env r.st (if r.removed then arr.erase w else arr) (i + 1)
      (rest.1, r.evs ++ rest.2.1, true)
    else (r.st, r.evs, true)
  else (s, [], false)
termination_by arr.length - i
decreasing_by
  have h1 : (arr.erase (arr.getD i 0)).length ≤ arr.length :=
    List.Sublist.length_le (List.erase_sublist _ _)
  split
  all_goals omega

/-- `processCloseWatchers(window)`: if there is a group, reverse the last
group **in place** (`Array.prototype.reverse` mutates) and walk it calling
`requestClose()`, breaking on a `false` return; afterwards decrement
`allowedNumberOfGroups` when it exceeds 1.  Returns (state, trace,
`processedACloseWatcher`). -/
def processCloseWatchers (env : Env) (s : St) : St × List Ev × Bool :=
  let step :=
    if s.groups.length > 0 then
      let arr := (s.groups.getLastD []).reverse
      let sr : St := { s with groups := s.groups.dropLast ++ [arr] }
      processLoop env sr arr 0
    else (s, [], false)
  let s1 := step.1
  (if s1.allowedNumberOfGroups > 1 then
     { s1 with allowedNumberOfGroups := s1.allowedNumberOfGroups - 1 }
   else s1,
   step.2.1, step.2.2)

/-- The dispatcher loop with the `break` dropped: identical to
`processLoop` except that the loop ignores `requestClose()`'s return value
instead of exiting early on `false`.  Comparing the two makes "the
early-exit branch is unreachable" a provable statement. -/
def processLoopNoExit (env : Env) (s : St) (arr : List Nat) (i : Nat) : St × List Ev × Bool :=
  if h : i < arr.length then
    let w := arr.getD i 0
    let r := requestClose env s w
    let rest := processLoopNoExit env r.st (if r.removed then arr.erase w else arr) (i + 1)
    (rest.1, r.evs ++ rest.2.1, true)
  else (s, [], false)
termination_by arr.length - i
decreasing_by
  have h1 : (arr.erase (arr.getD i 0)).length ≤ arr.length :=
    List.Sublist.length_le (List.erase_sublist _ _)
  split
  all_goals omega

/-- Raw input events as far as `notify` inspects them: which constructor the
event is (`KeyboardEvent` with a key, `PointerEvent` with a pointer type, or
anything else) and its `isTrusted` bit. -/
inductive InputKind where
  | keyboard (key : String)
  | pointer (pointerType : String)
  | other
deriving DecidableEq, Repr

/-- A raw user-input event. -/
structure InputEvent where
  kind : InputKind
  isTrusted : Bool
deriving DecidableEq, Repr

/-- `e instanceof KeyboardEvent && e.key === 'Esc'`. -/
def isEscKeyboard (e : InputEvent) : Bool :=
  match e.kind with
  | InputKind.keyboard k => k == "Esc"
  | _ => false

/-- `e instanceof PointerEvent && e.pointerType === 'mouse'`. -/
def isMousePointer (e : InputEvent) : Bool :=
  match e.kind with
  | InputKind.pointer t => t == "mouse"
  | _ => false

/-- The `notify` handler of `listenForActivationTriggeringInputEvent`:
ignore Esc keyboard events and mouse pointer events; on a trusted event,
bump `allowedNumberOfGroups` when the one-shot flag is armed and disarm the
flag. -/
def notify (e : InputEvent) (s : St) : St :=
  if isEscKeyboard e then s
  else if isMousePointer e then s
  else if e.isTrusted then
    { s with
      allowedNumberOfGroups :=
        if s.nextUserInteractionAllowsAnewGroup then s.allowedNumberOfGroups + 1
        else s.allowedNumberOfGroups,
      nextUserInteractionAllowsAnewGroup := false }
  else s

/-- A qualifying user-activation signal: trusted, not an Esc keyboard event,
not a mouse pointer event — exactly the events on which `notify` reaches its
trusted branch. -/
def qualifying (e : InputEvent) : Bool :=
  !isEscKeyboard e && !isMousePointer e && e.isTrusted

/-- The operations external code can invoke on the core. -/
inductive Op where
  | opRegister (w : Nat)
  | opDestroy (w : Nat)
  | opClose (w : Nat)
  | opRequestClose (w : Nat)
  | opDispatch
  | opNotify (e : InputEvent)

/-- Run one operation, returning the new state and the events it emitted. -/
def runOp (env : Env) (s : St) : Op → St × List Ev
  | Op.opRegister w => (register s w, [])
  | Op.opDestroy w => (destroy s w, [])
  | Op.opClose w => close env s w
  | Op.opRequestClose w =>
    let r := requestClose env s w
    (r.st, r.evs)
  | Op.opDispatch =>
    let p := processCloseWatchers env s
    (p.1, p.2.1)
  | Op.opNotify e => (notify e s, [])

/-- Run a sequence of operations, concatenating their traces. -/
def runOps (env : Env) (s : St) : List Op → St × List Ev
  | [] => (s, [])
  | op :: ops =>
    let r := runOp env s op
    let r2 := runOps env r.1 ops
    (r2.1, r.2 ++ r2.2)

/-- States reachable from the initial manager state by the operations of the
source.  Registration uses a fresh identifier (a new `InternalCloseWatcher`
object is never already in a group nor has its guard set); each step may see
its own environment (callbacks and `document.defaultView` can vary). -/
inductive Reachable : St → Prop where
  | init : Reachable initSt
  | register (s : St) (w : Nat) : Reachable s → isActive s w = false →
      w ∉ s.runningCancelAction → Reachable (register s w)
  | destroy (s : St) (w : Nat) : Reachable s → Reachable (destroy s w)
  | close (env : Env) (s : St) (w : Nat) : Reachable s → Reachable (close env s w).1
  | requestClose (env : Env) (s : St) (w : Nat) : Reachable s →
      Reachable (requestClose env s w).st
  | dispatch (env : Env) (s : St) : Reachable s → Reachable (processCloseWatchers env s).1
  | notify (e : InputEvent) (s : St) : Reachable s → Reachable (notify e s)

/-- Functional description of what `destroy` does on well-formed states:
erase the watcher from every group and drop groups thereby emptied. -/
def removePruned (w : Nat) (gs : List (List Nat)) : List (List Nat) :=
  (gs.map (fun g => g.erase w)).filter (fun g => !g.isEmpty)

/-- Number of occurrences of watcher `w` across all groups. -/
def occurs (w : Nat) (gs : List (List Nat)) : Nat :=
  (gs.map (fun g => g.count w)).sum

/-- No group is empty. -/
def NoEmpty (gs : List (List Nat)) : Prop := ∀ g ∈ gs, g ≠ []

/-- The manager invariant the source maintains: no empty groups, and every
watcher occurs at most once across the whole group structure. -/
def Invariant (s : St) : Prop :=
  NoEmpty s.groups ∧ ∀ v, occurs v s.groups ≤ 1

/-- The watcher ids on which `requestClose` was entered, in trace order. -/
def rcCalls (evs : List Ev) : List Nat :=
  evs.filterMap (fun e =>
    match e with
    | Ev.requestCloseCalled w => some w
    | _ => none)

/-- Register a whole sequence of watchers, in order. -/
def registerAll (s : St) (ws : List Nat) : St := ws.foldl register s

/-- Environment in which every `cancelAction` returns `true` and
`document.defaultView` is present. -/
def envAllTrue : Env := ⟨fun _ => true, true⟩

/-- Environment in which only watcher 1's `cancelAction` returns `true`
(watcher 2's returns `false`) and `document.defaultView` is present. -/
def envOnly1True : Env := ⟨fun w => w == 1, true⟩

/-- Environment in which every `cancelAction` returns `false` and
`document.defaultView` is absent. -/
def envFalseNoView : Env := ⟨fun _ => false, false⟩

/-- One watcher registered. -/
def s1reg : St := register initSt 1

/-- Two watchers registered in order 1 then 2 (with the default
`allowedNumberOfGroups = 1` they share one group `[1, 2]`). -/
def s12 : St := register (register initSt 1) 2

/-- A trusted input event that is neither an Esc key nor a mouse pointer. -/
def evTouch : InputEvent := ⟨InputKind.other, true⟩

/-- A trusted non-Esc keyboard event. -/
def evKeyA : InputEvent := ⟨InputKind.keyboard "a", true⟩

/-- Environment in which every `cancelAction` returns `false` but
`document.defaultView` is present. -/
def envAllFalseView : Env := ⟨fun _ => false, true⟩

/-- A state in which watcher 1 is active but its reentrancy guard is
already set. -/
def sGuard : St := ⟨[[1]], 1, true, [1]⟩

/-- A sample operation sequence. -/
def opsSample : List Op := [Op.opRequestClose 1, Op.opDispatch]

/-! ### Field-preservation facts for `destroy` and `close` -/

theorem destroy_allowed (s : St) (w : Nat) :
    (destroy s w).allowedNumberOfGroups = s.allowedNumberOfGroups := rfl

theorem destroy_flag (s : St) (w : Nat) :
    (destroy s w).nextUserInteractionAllowsAnewGroup =
      s.nextUserInteractionAllowsAnewGroup := rfl

theorem destroy_running (s : St) (w : Nat) :
    (destroy s w).runningCancelAction = s.runningCancelAction := rfl

theorem close_of_inactive (env : Env) (s : St) (w : Nat) (h : isActive s w = false) :
    close env s w = (s, []) := by
  unfold close; rw [h]; simp

theorem close_of_noView (env : Env) (s : St) (w : Nat) (h : env.defaultView = false) :
    close env s w = (s, []) := by
  unfold close; rw [h]; simp

theorem close_of_active (env : Env) (s : St) (w : Nat) (ha : isActive s w = true)
    (hv : env.defaultView = true) :
    close env s w = (destroy s w, [Ev.closeCalled w]) := by
  unfold close; rw [ha, hv]; simp

theorem close_allowed (env : Env) (s : St) (w : Nat) :
    (close env s w).1.allowedNumberOfGroups = s.allowedNumberOfGroups := by
  unfold close; split <;> rfl

theorem close_flag (env : Env) (s : St) (w : Nat) :
    (close env s w).1.nextUserInteractionAllowsAnewGroup =
      s.nextUserInteractionAllowsAnewGroup := by
  unfold close; split <;> rfl

theorem close_running (env : Env) (s : St) (w : Nat) :
    (close env s w).1.runningCancelAction = s.runningCancelAction := by
  unfold close; split <;> rfl

/-! ### Case equations for `requestClose` -/

/-- `isActive` only looks at `groups`, so updating the reentrancy guard does
not change it. -/
theorem isActive_set_running (s : St) (v : Nat) (l : List Nat) :
    isActive { s with runningCancelAction := l } v = isActive s v := rfl

theorem requestClose_of_inactive (env : Env) (s : St) (w : Nat)
    (h : isActive s w = false) :
    requestClose env s w = ⟨s, [Ev.requestCloseCalled w], true, false⟩ := by
  unfold requestClose; rw [h]; simp

theorem requestClose_of_running (env : Env) (s : St) (w : Nat)
    (h : s.runningCancelAction.contains w = true) :
    requestClose env s w = ⟨s, [Ev.requestCloseCalled w], true, false⟩ := by
  unfold requestClose; rw [h]; simp

theorem requestClose_of_cancel_true (env : Env) (s : St) (w : Nat)
    (ha : isActive s w = true) (hr : s.runningCancelAction.contains w = false)
    (hc : env.cancelReturns w = true) :
    requestClose env s w =
      ⟨{ s with runningCancelAction := w :: s.runningCancelAction },
       [Ev.requestCloseCalled w, Ev.cancelCalled w], true, false⟩ := by
  unfold requestClose; rw [ha, hr, hc]; simp

theorem requestClose_of_cancel_false (env : Env) (s : St) (w : Nat)
    (ha : isActive s w = true) (hr : s.runningCancelAction.contains w = false)
    (hc : env.cancelReturns w = false) :
    requestClose env s w =
      (let s1 : St := { s with runningCancelAction := w :: s.runningCancelAction }
       let c := close env s1 w
       ⟨c.1, Ev.requestCloseCalled w :: Ev.cancelCalled w :: c.2, true, !c.2.isEmpty⟩) := by
  unfold requestClose; rw [ha, hr, hc]; simp

theorem requestClose_ret (env : Env) (s : St) (w : Nat) :
    (requestClose env s w).ret = true := by
  unfold requestClose
  split
  · split <;> rfl
  · rfl

theorem requestClose_allowed (env : Env) (s : St) (w : Nat) :
    (requestClose env s w).st.allowedNumberOfGroups = s.allowedNumberOfGroups := by
  unfold requestClose
  split
  · split
    · exact close_allowed env _ w
    · rfl
  · rfl

theorem requestClose_flag (env : Env) (s : St) (w : Nat) :
    (requestClose env s w).st.nextUserInteractionAllowsAnewGroup =
      s.nextUserInteractionAllowsAnewGroup := by
  unfold requestClose
  split
  · split
    · exact close_flag env _ w
    · rfl
  · rfl

theorem requestClose_running_mono (env : Env) (s : St) (w : Nat) :
    s.runningCancelAction ⊆ (requestClose env s w).st.runningCancelAction := by
  unfold requestClose
  split
  · split
    · intro v hv
      rw [close_running]
      exact List.mem_cons_of_mem _ hv
    · intro v hv
      exact List.mem_cons_of_mem _ hv
  · exact fun v hv => hv

end CloseWatcherModel

namespace CloseWatcherModel

theorem destroyRest_cons_ne (w : Nat) (g : List Nat) (rest : List (List Nat))
    (h : ¬ (if g.contains w = true then g.erase w else g).isEmpty = true) :
    destroyRest w (g :: rest) =
      (if g.contains w = true then g.erase w else g) :: destroyRest w rest := by
  have h' : ¬ (if w ∈ g then g.erase w else g) = [] := by simpa using h
  cases rest <;> simp [destroyRest, h']

theorem destroyLoop_eq (w : Nat) (gs : List (List Nat)) (i : Nat) :
    destroyLoop w gs i = gs.take i ++ destroyRest w (gs.drop i) := by
  induction gs, i using destroyLoop.induct w with
  | case1 gs i hi g g' hcond ih =>
    have hempty : (if (gs.getD i []).contains w = true then (gs.getD i []).erase w
        else gs.getD i []).isEmpty = true := hcond
    have ih' : destroyLoop w (gs.eraseIdx i) (i + 1) =
        (gs.eraseIdx i).take (i + 1) ++ destroyRest w ((gs.eraseIdx i).drop (i + 1)) := ih
    unfold destroyLoop
    rw [dif_pos hi, if_pos hempty, ih', List.eraseIdx_eq_take_drop_succ,
        List.drop_eq_getElem_cons hi]
    rw [List.getD_eq_getElem gs [] hi] at hempty
    have hlen : (gs.take i).length = i := by
      rw [List.length_take]; omega
    rw [List.take_append_eq_append_take, List.drop_append_eq_append_drop, hlen,
        List.take_take, List.drop_of_length_le (by omega : (gs.take i).length ≤ i + 1)]
    have h1 : i + 1 - i = 1 := by omega
    have h2 : min (i + 1) i = i := by omega
    rw [h1, h2]
    cases hd : gs.drop (i + 1) with
    | nil =>
      simp [destroyRest]
      simpa using hempty
    | cons g2 rest2 =>
      simp only [destroyRest, List.nil_append, List.take_succ_cons, List.take_zero,
        List.drop_succ_cons, List.drop_zero]
      rw [if_pos hempty]
      simp
  | case2 gs i hi g g' hcond ih =>
    have hne : ¬ (if (gs.getD i []).contains w = true then (gs.getD i []).erase w
        else gs.getD i []).isEmpty = true := hcond
    have ih' : destroyLoop w
        (gs.set i (if (gs.getD i []).contains w = true then (gs.getD i []).erase w
          else gs.getD i [])) (i + 1) =
        (gs.set i (if (gs.getD i []).contains w = true then (gs.getD i []).erase w
          else gs.getD i [])).take (i + 1) ++
        destroyRest w ((gs.set i (if (gs.getD i []).contains w = true
          then (gs.getD i []).erase w else gs.getD i [])).drop (i + 1)) := ih
    unfold destroyLoop
    rw [dif_pos hi, if_neg hne, ih']
    rw [List.getD_eq_getElem gs [] hi] at hne ⊢
    rw [List.set_eq_take_cons_drop _ hi, List.drop_eq_getElem_cons hi]
    have hlen : (gs.take i).length = i := by
      rw [List.length_take]; omega
    rw [List.take_append_eq_append_take, List.drop_append_eq_append_drop, hlen,
        List.take_take, List.drop_of_length_le (by omega : (gs.take i).length ≤ i + 1)]
    have h1 : i + 1 - i = 1 := by omega
    have h2 : min (i + 1) i = i := by omega
    rw [h1, h2]
    rw [destroyRest_cons_ne w _ _ hne]
    simp
  | case3 gs i hi =>
    unfold destroyLoop
    rw [dif_neg hi]
    rw [List.take_of_length_le (Nat.le_of_not_lt hi),
        List.drop_of_length_le (Nat.le_of_not_lt hi)]
    simp [destroyRest]

end CloseWatcherModel

namespace CloseWatcherModel

/-! ### `destroy` via `removePruned` on well-formed group lists -/

theorem destroy_groups (s : St) (w : Nat) :
    (destroy s w).groups = destroyRest w s.groups := by
  show destroyLoop w s.groups 0 = _
  rw [destroyLoop_eq]
  simp

theorem destroyRest_cons_empty_nil (w : Nat) (g : List Nat)
    (h : (if g.contains w = true then g.erase w else g).isEmpty = true) :
    destroyRest w [g] = [] := by
  have h' : (if w ∈ g then g.erase w else g) = [] := by
    split
    · next hm => have h2 := h; simp [hm] at h2 ⊢; tauto
    · next hm => have h2 := h; simp [hm] at h2 ⊢; tauto
  simp [destroyRest, h']

theorem destroyRest_cons_empty_cons (w : Nat) (g g2 : List Nat) (rest2 : List (List Nat))
    (h : (if g.contains w = true then g.erase w else g).isEmpty = true) :
    destroyRest w (g :: g2 :: rest2) = g2 :: destroyRest w rest2 := by
  have h' : (if w ∈ g then g.erase w else g) = [] := by
    split
    · next hm => have h2 := h; simp [hm] at h2 ⊢; tauto
    · next hm => have h2 := h; simp [hm] at h2 ⊢; tauto
  simp [destroyRest, h']

theorem removePruned_cons_pos (w : Nat) (g : List Nat) (rest : List (List Nat))
    (h : (g.erase w).isEmpty = false) :
    removePruned w (g :: rest) = g.erase w :: removePruned w rest := by
  simp only [removePruned, List.map_cons]
  rw [List.filter_cons_of_pos (by simp [h])]

theorem removePruned_cons_neg (w : Nat) (g : List Nat) (rest : List (List Nat))
    (h : (g.erase w).isEmpty = true) :
    removePruned w (g :: rest) = removePruned w rest := by
  simp only [removePruned, List.map_cons]
  rw [List.filter_cons_of_neg (by simp [h])]

theorem occurs_cons (w : Nat) (g : List Nat) (rest : List (List Nat)) :
    occurs w (g :: rest) = g.count w + occurs w rest := by
  simp [occurs]

theorem count_le_occurs (w : Nat) (gs : List (List Nat)) (g : List Nat)
    (h : g ∈ gs) : g.count w ≤ occurs w gs :=
  List.single_le_sum (fun y _ => Nat.zero_le y) _ (List.mem_map_of_mem _ h)

theorem occurs_eq_zero (w : Nat) (gs : List (List Nat)) :
    occurs w gs = 0 ↔ ∀ g ∈ gs, w ∉ g := by
  unfold occurs
  rw [List.sum_eq_zero_iff]
  constructor
  · intro h g hg
    have := h _ (List.mem_map_of_mem _ hg)
    exact List.count_eq_zero.mp this
  · intro h n hn
    obtain ⟨g, hg, rfl⟩ := List.mem_map.mp hn
    exact List.count_eq_zero.mpr (h g hg)

theorem isActive_false_iff (s : St) (w : Nat) :
    isActive s w = false ↔ ∀ g ∈ s.groups, w ∉ g := by
  simp [isActive]

theorem isActive_true_iff (s : St) (w : Nat) :
    isActive s w = true ↔ ∃ g ∈ s.groups, w ∈ g := by
  simp [isActive]

theorem destroyRest_id (w : Nat) (gs : List (List Nat))
    (h : ∀ g ∈ gs, w ∉ g ∧ g ≠ []) : destroyRest w gs = gs := by
  induction gs with
  | nil => rfl
  | cons g rest ih =>
    have hg := h g (List.mem_cons_self g rest)
    have hc : g.contains w = false := by
      simp [hg.1]
    have hne : ¬ (if g.contains w = true then g.erase w else g).isEmpty = true := by
      rw [hc]
      simpa using hg.2
    rw [destroyRest_cons_ne w g rest hne, hc]
    simp only [Bool.false_eq_true, if_false]
    rw [ih (fun g2 hg2 => h g2 (List.mem_cons_of_mem _ hg2))]

theorem removePruned_id (w : Nat) (gs : List (List Nat))
    (h : ∀ g ∈ gs, w ∉ g ∧ g ≠ []) : removePruned w gs = gs := by
  induction gs with
  | nil => rfl
  | cons g rest ih =>
    have hg := h g (List.mem_cons_self g rest)
    have he : g.erase w = g := List.erase_of_not_mem hg.1
    rw [removePruned_cons_pos w g rest (by rw [he]; simpa using hg.2), he,
        ih (fun g2 hg2 => h g2 (List.mem_cons_of_mem _ hg2))]

theorem destroyRest_eq_removePruned (w : Nat) (gs : List (List Nat))
    (hne : NoEmpty gs) (hocc : occurs w gs ≤ 1) :
    destroyRest w gs = removePruned w gs := by
  induction gs with
  | nil => rfl
  | cons g rest ih =>
    have hgne : g ≠ [] := hne g (List.mem_cons_self g rest)
    have hrne : NoEmpty rest := fun g2 hg2 => hne g2 (List.mem_cons_of_mem _ hg2)
    rw [occurs_cons] at hocc
    cases hc : g.contains w with
    | false =>
      have hwg : w ∉ g := by simpa using hc
      have hcond : ¬ (if g.contains w = true then g.erase w else g).isEmpty = true := by
        rw [hc]
        simpa using hgne
      have he : g.erase w = g := List.erase_of_not_mem hwg
      rw [destroyRest_cons_ne w g rest hcond, hc]
      simp only [Bool.false_eq_true, if_false]
      rw [ih hrne (Nat.le_trans (Nat.le_add_left _ _) hocc)]
      rw [removePruned_cons_pos w g rest (by rw [he]; simpa using hgne), he]
    | true =>
      have hwg : w ∈ g := by simpa using hc
      have hcnt : 1 ≤ g.count w := List.one_le_count_iff.mpr hwg
      have hrest0 : occurs w rest = 0 := by omega
      have hrestfacts : ∀ g2 ∈ rest, w ∉ g2 ∧ g2 ≠ [] := by
        intro g2 hg2
        exact ⟨(occurs_eq_zero w rest).mp hrest0 g2 hg2, hrne g2 hg2⟩
      have hrp : removePruned w rest = rest := removePruned_id w rest hrestfacts
      cases hd : (g.erase w).isEmpty with
      | true =>
        have hcond : (if g.contains w = true then g.erase w else g).isEmpty = true := by
          rw [hc]; simpa using hd
        rw [removePruned_cons_neg w g rest hd, hrp]
        cases rest with
        | nil => exact destroyRest_cons_empty_nil w g hcond
        | cons g2 rest2 =>
          rw [destroyRest_cons_empty_cons w g g2 rest2 hcond]
          rw [destroyRest_id w rest2 (fun g3 hg3 =>
            hrestfacts g3 (List.mem_cons_of_mem _ hg3))]
      | false =>
        have hcond : ¬ (if g.contains w = true then g.erase w else g).isEmpty = true := by
          rw [hc]; simpa using hd
        rw [destroyRest_cons_ne w g rest hcond, hc]
        simp only [if_pos]
        rw [destroyRest_id w rest hrestfacts]
        rw [removePruned_cons_pos w g rest hd, hrp]

end CloseWatcherModel

namespace CloseWatcherModel

/-! ### Consequences for `destroy` on well-formed states -/

theorem removePruned_ne_nil (w : Nat) (gs : List (List Nat)) :
    ∀ g ∈ removePruned w gs, g ≠ [] := by
  intro g hg
  have := List.of_mem_filter hg
  simpa using this

theorem removePruned_not_mem (w : Nat) (gs : List (List Nat))
    (h : ∀ g ∈ gs, g.count w ≤ 1) : ∀ g ∈ removePruned w gs, w ∉ g := by
  intro g hg
  have hg' := List.mem_of_mem_filter hg
  obtain ⟨g0, hg0, rfl⟩ := List.mem_map.mp hg'
  have : (g0.erase w).count w = g0.count w - 1 := List.count_erase_self w g0
  have hc : (g0.erase w).count w = 0 := by
    have := h g0 hg0
    omega
  exact List.count_eq_zero.mp hc

theorem occurs_removePruned_le (v w : Nat) (gs : List (List Nat)) :
    occurs v (removePruned w gs) ≤ occurs v gs := by
  induction gs with
  | nil => exact Nat.le_refl _
  | cons g rest ih =>
    cases hd : (g.erase w).isEmpty with
    | true =>
      rw [removePruned_cons_neg w g rest hd, occurs_cons]
      exact Nat.le_trans ih (Nat.le_add_left _ _)
    | false =>
      rw [removePruned_cons_pos w g rest hd, occurs_cons, occurs_cons]
      have hcnt : (g.erase w).count v ≤ g.count v := by
        rw [List.count_erase]
        split <;> omega
      omega

theorem destroy_groups_wf (s : St) (w : Nat) (hne : NoEmpty s.groups)
    (hocc : occurs w s.groups ≤ 1) :
    (destroy s w).groups = removePruned w s.groups := by
  rw [destroy_groups, destroyRest_eq_removePruned w _ hne hocc]

theorem destroy_of_inactive (s : St) (w : Nat) (hne : NoEmpty s.groups)
    (hia : isActive s w = false) : destroy s w = s := by
  have h := destroyRest_id w s.groups
    (fun g hg => ⟨(isActive_false_iff s w).mp hia g hg, hne g hg⟩)
  show { s with groups := destroyLoop w s.groups 0 } = s
  rw [destroyLoop_eq]
  simp [h]

theorem isActive_destroy (s : St) (w : Nat) (hne : NoEmpty s.groups)
    (hocc : occurs w s.groups ≤ 1) : isActive (destroy s w) w = false := by
  rw [isActive_false_iff, destroy_groups_wf s w hne hocc]
  exact removePruned_not_mem w s.groups
    (fun g hg => Nat.le_trans (count_le_occurs w s.groups g hg) hocc)

theorem noEmpty_destroy (s : St) (w : Nat) (hne : NoEmpty s.groups)
    (hocc : occurs w s.groups ≤ 1) : NoEmpty (destroy s w).groups := by
  rw [destroy_groups_wf s w hne hocc]
  exact removePruned_ne_nil w s.groups

theorem destroy_idem (s : St) (w : Nat) (hne : NoEmpty s.groups)
    (hocc : occurs w s.groups ≤ 1) : destroy (destroy s w) w = destroy s w :=
  destroy_of_inactive (destroy s w) w (noEmpty_destroy s w hne hocc)
    (isActive_destroy s w hne hocc)

theorem invariant_destroy (s : St) (w : Nat) (hinv : Invariant s) :
    Invariant (destroy s w) := by
  have hg := destroy_groups_wf s w hinv.1 (hinv.2 w)
  constructor
  · rw [hg]
    exact removePruned_ne_nil w s.groups
  · intro v
    rw [hg]
    exact Nat.le_trans (occurs_removePruned_le v w s.groups) (hinv.2 v)

theorem invariant_close (env : Env) (s : St) (w : Nat) (hinv : Invariant s) :
    Invariant (close env s w).1 := by
  unfold close
  split
  · exact invariant_destroy s w hinv
  · exact hinv

theorem invariant_requestClose (env : Env) (s : St) (w : Nat) (hinv : Invariant s) :
    Invariant (requestClose env s w).st := by
  have hinv1 : Invariant { s with runningCancelAction := w :: s.runningCancelAction } := hinv
  unfold requestClose
  split
  · split
    · exact invariant_close env _ w hinv1
    · exact hinv1
  · exact hinv

end CloseWatcherModel

namespace CloseWatcherModel

/-! ### The dispatcher loop -/

theorem rcCalls_requestClose (env : Env) (s : St) (w : Nat) :
    rcCalls (requestClose env s w).evs = [w] := by
  unfold requestClose close
  split
  · split
    · dsimp only
      split
      all_goals simp [rcCalls]
    · simp [rcCalls]
  · simp [rcCalls]

theorem requestClose_cancel_true_facts (env : Env) (s : St) (w : Nat)
    (hc : env.cancelReturns w = true) :
    (requestClose env s w).st.groups = s.groups ∧
      (requestClose env s w).removed = false := by
  unfold requestClose
  rw [hc]
  split
  · exact ⟨rfl, rfl⟩
  · exact ⟨rfl, rfl⟩

theorem processLoop_allowed (env : Env) (s : St) (arr : List Nat) (i : Nat) :
    (processLoop env s arr i).1.allowedNumberOfGroups = s.allowedNumberOfGroups := by
  induction s, arr, i using processLoop.induct env with
  | case1 s arr i hi w r hret ih =>
    unfold processLoop
    rw [dif_pos hi, if_pos (requestClose_ret env s (arr.getD i 0))]
    have ih' : (processLoop env (requestClose env s (arr.getD i 0)).st
        (if (requestClose env s (arr.getD i 0)).removed = true
          then arr.erase (arr.getD i 0) else arr) (i + 1)).1.allowedNumberOfGroups =
        (requestClose env s (arr.getD i 0)).st.allowedNumberOfGroups := ih
    exact ih'.trans (requestClose_allowed env s (arr.getD i 0))
  | case2 s arr i hi w r hret =>
    exact absurd (requestClose_ret env s (arr.getD i 0)) hret
  | case3 s arr i hi =>
    unfold processLoop
    rw [dif_neg hi]

end CloseWatcherModel

namespace CloseWatcherModel

theorem processLoop_flag (env : Env) (s : St) (arr : List Nat) (i : Nat) :
    (processLoop env s arr i).1.nextUserInteractionAllowsAnewGroup =
      s.nextUserInteractionAllowsAnewGroup := by
  induction s, arr, i using processLoop.induct env with
  | case1 s arr i hi w r hret ih =>
    unfold processLoop
    rw [dif_pos hi, if_pos (requestClose_ret env s (arr.getD i 0))]
    have ih' : (processLoop env (requestClose env s (arr.getD i 0)).st
        (if (requestClose env s (arr.getD i 0)).removed = true
          then arr.erase (arr.getD i 0) else arr) (i + 1)).1.nextUserInteractionAllowsAnewGroup =
        (requestClose env s (arr.getD i 0)).st.nextUserInteractionAllowsAnewGroup := ih
    exact ih'.trans (requestClose_flag env s (arr.getD i 0))
  | case2 s arr i hi w r hret =>
    exact absurd (requestClose_ret env s (arr.getD i 0)) hret
  | case3 s arr i hi =>
    unfold processLoop
    rw [dif_neg hi]

theorem processLoop_running_mono (env : Env) (s : St) (arr : List Nat) (i : Nat) :
    s.runningCancelAction ⊆ (processLoop env s arr i).1.runningCancelAction := by
  induction s, arr, i using processLoop.induct env with
  | case1 s arr i hi w r hret =>
    rename_i ih
    unfold processLoop
    rw [dif_pos hi, if_pos (requestClose_ret env s (arr.getD i 0))]
    have ih' : (requestClose env s (arr.getD i 0)).st.runningCancelAction ⊆
        (processLoop env (requestClose env s (arr.getD i 0)).st
          (if (requestClose env s (arr.getD i 0)).removed = true
            then arr.erase (arr.getD i 0) else arr) (i + 1)).1.runningCancelAction := ih
    exact List.Subset.trans (requestClose_running_mono env s (arr.getD i 0)) ih'
  | case2 s arr i hi w r =>
    rename_i hret
    exact absurd (requestClose_ret env s (arr.getD i 0)) hret
  | case3 s arr i =>
    rename_i hi
    unfold processLoop
    rw [dif_neg hi]
    exact fun v hv => hv

theorem processLoop_invariant (env : Env) (s : St) (arr : List Nat) (i : Nat)
    (hinv : Invariant s) : Invariant (processLoop env s arr i).1 := by
  induction s, arr, i using processLoop.induct env with
  | case1 s arr i hi w r hret ih =>
    unfold processLoop
    rw [dif_pos hi, if_pos (requestClose_ret env s (arr.getD i 0))]
    exact ih (invariant_requestClose env s (arr.getD i 0) hinv)
  | case2 s arr i hi w r hret =>
    exact absurd (requestClose_ret env s (arr.getD i 0)) hret
  | case3 s arr i hi =>
    unfold processLoop
    rw [dif_neg hi]
    exact hinv

theorem processLoop_eq_noExit (env : Env) (s : St) (arr : List Nat) (i : Nat) :
    processLoop env s arr i = processLoopNoExit env s arr i := by
  induction s, arr, i using processLoop.induct env with
  | case1 s arr i hi w r hret ih =>
    unfold processLoop processLoopNoExit
    rw [dif_pos hi, dif_pos hi, if_pos (requestClose_ret env s (arr.getD i 0))]
    have ih' : processLoop env (requestClose env s (arr.getD i 0)).st
        (if (requestClose env s (arr.getD i 0)).removed = true
          then arr.erase (arr.getD i 0) else arr) (i + 1) =
        processLoopNoExit env (requestClose env s (arr.getD i 0)).st
        (if (requestClose env s (arr.getD i 0)).removed = true
          then arr.erase (arr.getD i 0) else arr) (i + 1) := ih
    rw [ih']
  | case2 s arr i hi w r hret =>
    exact absurd (requestClose_ret env s (arr.getD i 0)) hret
  | case3 s arr i hi =>
    unfold processLoop processLoopNoExit
    rw [dif_neg hi, dif_neg hi]

theorem rcCalls_append (a b : List Ev) : rcCalls (a ++ b) = rcCalls a ++ rcCalls b :=
  List.filterMap_append a b _

theorem processLoop_groups_const (env : Env) (s : St) (arr : List Nat) (i : Nat)
    (h : ∀ v ∈ arr, env.cancelReturns v = true) :
    (processLoop env s arr i).1.groups = s.groups := by
  induction s, arr, i using processLoop.induct env with
  | case1 s arr i hi w r hret ih =>
    have hmem : arr.getD i 0 ∈ arr := by
      rw [List.getD_eq_getElem arr 0 hi]
      exact List.getElem_mem hi
    have hfacts := requestClose_cancel_true_facts env s (arr.getD i 0) (h _ hmem)
    unfold processLoop
    rw [dif_pos hi, if_pos (requestClose_ret env s (arr.getD i 0))]
    have ih' : (∀ v ∈ (if (requestClose env s (arr.getD i 0)).removed = true
          then arr.erase (arr.getD i 0) else arr), env.cancelReturns v = true) →
        (processLoop env (requestClose env s (arr.getD i 0)).st
          (if (requestClose env s (arr.getD i 0)).removed = true
            then arr.erase (arr.getD i 0) else arr) (i + 1)).1.groups =
        (requestClose env s (arr.getD i 0)).st.groups := ih
    rw [hfacts.2] at ih'
    simp only [Bool.false_eq_true, if_false] at ih'
    rw [hfacts.2]
    simp only [Bool.false_eq_true, if_false]
    rw [ih' h, hfacts.1]
  | case2 s arr i hi w r hret =>
    exact absurd (requestClose_ret env s (arr.getD i 0)) hret
  | case3 s arr i hi =>
    unfold processLoop
    rw [dif_neg hi]

theorem processLoop_rcCalls (env : Env) (s : St) (arr : List Nat) (i : Nat)
    (h : ∀ v ∈ arr, env.cancelReturns v = true) :
    rcCalls (processLoop env s arr i).2.1 = arr.drop i := by
  induction s, arr, i using processLoop.induct env with
  | case1 s arr i hi w r hret ih =>
    have hmem : arr.getD i 0 ∈ arr := by
      rw [List.getD_eq_getElem arr 0 hi]
      exact List.getElem_mem hi
    have hfacts := requestClose_cancel_true_facts env s (arr.getD i 0) (h _ hmem)
    unfold processLoop
    rw [dif_pos hi, if_pos (requestClose_ret env s (arr.getD i 0))]
    have ih' : (∀ v ∈ (if (requestClose env s (arr.getD i 0)).removed = true
          then arr.erase (arr.getD i 0) else arr), env.cancelReturns v = true) →
        rcCalls (processLoop env (requestClose env s (arr.getD i 0)).st
          (if (requestClose env s (arr.getD i 0)).removed = true
            then arr.erase (arr.getD i 0) else arr) (i + 1)).2.1 =
        (if (requestClose env s (arr.getD i 0)).removed = true
          then arr.erase (arr.getD i 0) else arr).drop (i + 1) := ih
    rw [hfacts.2] at ih'
    simp only [Bool.false_eq_true, if_false] at ih'
    rw [hfacts.2]
    simp only [Bool.false_eq_true, if_false]
    show rcCalls ((requestClose env s (arr.getD i 0)).evs ++ _) = _
    rw [rcCalls_append, rcCalls_requestClose, ih' h,
        List.drop_eq_getElem_cons hi, List.getD_eq_getElem arr 0 hi]
    rfl
  | case2 s arr i hi w r hret =>
    exact absurd (requestClose_ret env s (arr.getD i 0)) hret
  | case3 s arr i hi =>
    unfold processLoop
    rw [dif_neg hi, List.drop_of_length_le (Nat.le_of_not_lt hi)]
    rfl

end CloseWatcherModel

namespace CloseWatcherModel

/-! ### Dispatcher- and manager-level lemmas -/

theorem getLastD_eq_getLast (gs : List (List Nat)) (h : gs ≠ []) :
    gs.getLastD [] = gs.getLast h := by
  conv_lhs => rw [← List.dropLast_concat_getLast h]
  rw [List.getLastD_concat]

theorem occurs_append (v : Nat) (a b : List (List Nat)) :
    occurs v (a ++ b) = occurs v a + occurs v b := by
  simp [occurs]

theorem register_allowed (s : St) (w : Nat) :
    (register s w).allowedNumberOfGroups = s.allowedNumberOfGroups := by
  unfold register
  split <;> rfl

theorem register_flag (s : St) (w : Nat) :
    (register s w).nextUserInteractionAllowsAnewGroup =
      s.nextUserInteractionAllowsAnewGroup := by
  unfold register
  split <;> rfl

theorem register_running (s : St) (w : Nat) :
    (register s w).runningCancelAction = s.runningCancelAction := by
  unfold register
  split <;> rfl

theorem notify_groups (e : InputEvent) (s : St) : (notify e s).groups = s.groups := by
  unfold notify
  split
  · rfl
  · split
    · rfl
    · split <;> rfl

theorem notify_running (e : InputEvent) (s : St) :
    (notify e s).runningCancelAction = s.runningCancelAction := by
  unfold notify
  split
  · rfl
  · split
    · rfl
    · split <;> rfl

theorem notify_allowed_ge (e : InputEvent) (s : St) :
    s.allowedNumberOfGroups ≤ (notify e s).allowedNumberOfGroups := by
  unfold notify
  split
  · exact Nat.le_refl _
  · split
    · exact Nat.le_refl _
    · split
      · dsimp only
        split <;> omega
      · exact Nat.le_refl _

theorem notify_of_qualifying (e : InputEvent) (s : St) (h : qualifying e = true) :
    notify e s =
      { s with
        allowedNumberOfGroups :=
          if s.nextUserInteractionAllowsAnewGroup then s.allowedNumberOfGroups + 1
          else s.allowedNumberOfGroups,
        nextUserInteractionAllowsAnewGroup := false } := by
  unfold qualifying at h
  simp only [Bool.and_eq_true, Bool.not_eq_eq_eq_not, Bool.not_true] at h
  obtain ⟨⟨h1, h2⟩, h3⟩ := h
  unfold notify
  rw [h1, h2, h3]
  simp

theorem processCloseWatchers_allowed (env : Env) (s : St) :
    (processCloseWatchers env s).1.allowedNumberOfGroups =
      if 1 < s.allowedNumberOfGroups then s.allowedNumberOfGroups - 1
      else s.allowedNumberOfGroups := by
  unfold processCloseWatchers
  dsimp only
  by_cases hg : s.groups.length > 0
  · rw [if_pos hg, processLoop_allowed]
    dsimp only
    split
    · rfl
    · exact processLoop_allowed env _ _ 0
  · rw [if_neg hg]
    dsimp only
    split
    · rfl
    · rfl

theorem processCloseWatchers_flag (env : Env) (s : St) :
    (processCloseWatchers env s).1.nextUserInteractionAllowsAnewGroup =
      s.nextUserInteractionAllowsAnewGroup := by
  unfold processCloseWatchers
  dsimp only
  by_cases hg : s.groups.length > 0
  · rw [if_pos hg]
    split
    · rw [processLoop_flag]
    · rw [processLoop_flag]
  · rw [if_neg hg]
    split <;> rfl

theorem invariant_processCloseWatchers (env : Env) (s : St) (hinv : Invariant s) :
    Invariant (processCloseWatchers env s).1 := by
  unfold processCloseWatchers
  dsimp only
  by_cases hg : s.groups.length > 0
  · rw [if_pos hg]
    have hgne : s.groups ≠ [] := by
      intro hnil
      rw [hnil] at hg
      exact Nat.lt_irrefl 0 hg
    have hsr : Invariant { s with groups :=
        s.groups.dropLast ++ [(s.groups.getLastD []).reverse] } := by
      constructor
      · intro g hgmem
        rcases List.mem_append.mp hgmem with hmem | hmem
        · exact hinv.1 g (List.mem_of_mem_dropLast hmem)
        · have : g = (s.groups.getLastD []).reverse := List.mem_singleton.mp hmem
          rw [this]
          intro hrev
          have : s.groups.getLastD [] = [] := by
            have := congrArg List.reverse hrev
            simpa using this
          rw [getLastD_eq_getLast s.groups hgne] at this
          exact hinv.1 _ (List.getLast_mem hgne) this
      · intro v
        show occurs v (s.groups.dropLast ++ [(s.groups.getLastD []).reverse]) ≤ 1
        rw [occurs_append]
        have hc : occurs v [(s.groups.getLastD []).reverse] =
            occurs v [s.groups.getLastD []] := by
          simp [occurs, List.count_reverse]
        rw [hc, ← occurs_append]
        have hsplit : s.groups.dropLast ++ [s.groups.getLastD []] = s.groups := by
          rw [getLastD_eq_getLast s.groups hgne]
          exact List.dropLast_concat_getLast hgne
        rw [hsplit]
        exact hinv.2 v
    have hres := processLoop_invariant env _ ((s.groups.getLastD []).reverse) 0 hsr
    split
    · next hgt =>
      constructor
      · exact hres.1
      · exact hres.2
    · exact hres
  · rw [if_neg hg]
    split
    · next hgt =>
      constructor
      · exact hinv.1
      · exact hinv.2
    · exact hinv

theorem reachable_inv (s : St) (h : Reachable s) :
    Invariant s ∧ 1 ≤ s.allowedNumberOfGroups := by
  induction h with
  | init =>
    constructor
    · constructor
      · intro g hg
        exact absurd hg (List.not_mem_nil g)
      · intro v
        simp [occurs, initSt]
    · exact Nat.le_refl 1
  | register s w hr hia hnr ih =>
    refine ⟨?_, ?_⟩
    · have hocc0 : occurs w s.groups = 0 :=
        (occurs_eq_zero w s.groups).mpr ((isActive_false_iff s w).mp hia)
      unfold register
      split
      · next hlt =>
        constructor
        · intro g hg
          rcases List.mem_append.mp hg with hmem | hmem
          · exact ih.1.1 g hmem
          · rw [List.mem_singleton.mp hmem]
            exact List.cons_ne_nil w []
        · intro v
          show occurs v (s.groups ++ [[w]]) ≤ 1
          rw [occurs_append]
          by_cases hvw : v = w
          · subst hvw
            have : occurs v [[v]] = 1 := by simp [occurs]
            omega
          · have h1 : occurs v [[w]] = 0 := by
              simp [occurs, List.count_singleton]
              omega
            have := ih.1.2 v
            omega
      · next hge =>
        have hgne : s.groups ≠ [] := by
          intro hnil
          rw [hnil] at hge
          simp at hge
          omega
        constructor
        · intro g hg
          rcases List.mem_append.mp hg with hmem | hmem
          · exact ih.1.1 g (List.mem_of_mem_dropLast hmem)
          · rw [List.mem_singleton.mp hmem]
            intro hcontra
            exact absurd (List.append_eq_nil.mp hcontra).2 (List.cons_ne_nil w [])
        · intro v
          show occurs v (s.groups.dropLast ++ [s.groups.getLastD [] ++ [w]]) ≤ 1
          rw [occurs_append]
          have hx : occurs v [s.groups.getLastD [] ++ [w]] =
              occurs v [s.groups.getLastD []] + occurs v [[w]] := by
            simp [occurs, List.count_append]
          rw [hx, ← Nat.add_assoc, ← occurs_append]
          have hsplit : s.groups.dropLast ++ [s.groups.getLastD []] = s.groups := by
            rw [getLastD_eq_getLast s.groups hgne]
            exact List.dropLast_concat_getLast hgne
          rw [hsplit]
          by_cases hvw : v = w
          · subst hvw
            have h1 : occurs v [[v]] = 1 := by simp [occurs]
            have h2 : occurs v s.groups = 0 := hocc0
            omega
          · have h1 : occurs v [[w]] = 0 := by
              simp [occurs, List.count_singleton]
              omega
            have := ih.1.2 v
            omega
    · rw [register_allowed]
      exact ih.2
  | destroy s w hr ih =>
    exact ⟨invariant_destroy s w ih.1, by rw [destroy_allowed]; exact ih.2⟩
  | close env s w hr ih =>
    exact ⟨invariant_close env s w ih.1, by rw [close_allowed]; exact ih.2⟩
  | requestClose env s w hr ih =>
    exact ⟨invariant_requestClose env s w ih.1, by rw [requestClose_allowed]; exact ih.2⟩
  | dispatch env s hr ih =>
    refine ⟨invariant_processCloseWatchers env s ih.1, ?_⟩
    rw [processCloseWatchers_allowed]
    split <;> omega
  | notify e s hr ih =>
    refine ⟨?_, Nat.le_trans ih.2 (notify_allowed_ge e s)⟩
    have hg := notify_groups e s
    constructor
    · intro g hgm
      rw [hg] at hgm
      exact ih.1.1 g hgm
    · intro v
      show occurs v (notify e s).groups ≤ 1
      rw [hg]
      exact ih.1.2 v

end CloseWatcherModel

namespace CloseWatcherModel

/-! ### Counting `cancelAction` invocations -/

theorem requestClose_cancelCount (env : Env) (s : St) (w v : Nat) :
    ((requestClose env s w).evs.count (Ev.cancelCalled v) ≤ 1) ∧
    (v ≠ w → (requestClose env s w).evs.count (Ev.cancelCalled v) = 0) ∧
    (w ∈ s.runningCancelAction → (requestClose env s w).evs.count (Ev.cancelCalled v) = 0) ∧
    (1 ≤ (requestClose env s w).evs.count (Ev.cancelCalled v) →
      v ∈ (requestClose env s w).st.runningCancelAction) := by
  by_cases hvw : v = w
  · subst hvw
    by_cases hact : (isActive s v && !(s.runningCancelAction.contains v)) = true
    · have hwr : v ∉ s.runningCancelAction := by
        rcases (Bool.and_eq_true _ _).mp hact with ⟨_, h2⟩
        simpa using h2
      unfold requestClose close
      rw [if_pos hact]
      dsimp only
      split
      · split
        · exact ⟨by simp [List.count_cons], fun hne => absurd rfl hne,
            fun hmem => absurd hmem hwr, fun _ => List.mem_cons_self _ _⟩
        · exact ⟨by simp [List.count_cons], fun hne => absurd rfl hne,
            fun hmem => absurd hmem hwr, fun _ => List.mem_cons_self _ _⟩
      · exact ⟨by simp [List.count_cons], fun hne => absurd rfl hne,
          fun hmem => absurd hmem hwr, fun _ => List.mem_cons_self _ _⟩
    · unfold requestClose
      rw [if_neg hact]
      refine ⟨by simp [List.count_cons], fun hne => absurd rfl hne,
        fun _ => by simp [List.count_cons], fun h1 => ?_⟩
      exfalso
      simp [List.count_cons] at h1
  · have hwv : w ≠ v := Ne.symm hvw
    have hzero : (requestClose env s w).evs.count (Ev.cancelCalled v) = 0 := by
      unfold requestClose close
      split
      · dsimp only
        split
        · split
          · simp [List.count_cons, hwv]
          · simp [List.count_cons, hwv]
        · simp [List.count_cons, hwv]
      · simp [List.count_cons]
    refine ⟨by rw [hzero]; exact Nat.zero_le 1, fun _ => hzero, fun _ => hzero,
      fun h1 => ?_⟩
    exfalso
    rw [hzero] at h1
    exact absurd h1 (by omega)

end CloseWatcherModel

namespace CloseWatcherModel

theorem processLoop_cancelCount (env : Env) (v : Nat) (s : St) (arr : List Nat) (i : Nat) :
    ((v ∈ s.runningCancelAction →
      (processLoop env s arr i).2.1.count (Ev.cancelCalled v) = 0)) ∧
    ((processLoop env s arr i).2.1.count (Ev.cancelCalled v) ≤ 1) ∧
    (1 ≤ (processLoop env s arr i).2.1.count (Ev.cancelCalled v) →
      v ∈ (processLoop env s arr i).1.runningCancelAction) := by
  induction s, arr, i using processLoop.induct env with
  | case1 s arr i hi w r hret ih =>
    have hrc := requestClose_cancelCount env s (arr.getD i 0) v
    have hmono := requestClose_running_mono env s (arr.getD i 0)
    unfold processLoop
    rw [dif_pos hi, if_pos (requestClose_ret env s (arr.getD i 0))]
    dsimp only
    rw [List.count_append]
    set res := processLoop env (requestClose env s (arr.getD i 0)).st
      (if (requestClose env s (arr.getD i 0)).removed = true
        then arr.erase (arr.getD i 0) else arr) (i + 1) with hres
    have ihres : ((v ∈ (requestClose env s (arr.getD i 0)).st.runningCancelAction →
        res.2.1.count (Ev.cancelCalled v) = 0)) ∧
        (res.2.1.count (Ev.cancelCalled v) ≤ 1) ∧
        (1 ≤ res.2.1.count (Ev.cancelCalled v) → v ∈ res.1.runningCancelAction) := ih
    have hmono2 := processLoop_running_mono env (requestClose env s (arr.getD i 0)).st
      (if (requestClose env s (arr.getD i 0)).removed = true
        then arr.erase (arr.getD i 0) else arr) (i + 1)
    refine ⟨?_, ?_, ?_⟩
    · intro hv
      have h1 : (requestClose env s (arr.getD i 0)).evs.count (Ev.cancelCalled v) = 0 := by
        by_cases hvw : v = arr.getD i 0
        · subst hvw
          exact hrc.2.2.1 hv
        · exact hrc.2.1 hvw
      have h2 : res.2.1.count (Ev.cancelCalled v) = 0 := ihres.1 (hmono hv)
      omega
    · by_cases h1 : 1 ≤ (requestClose env s (arr.getD i 0)).evs.count (Ev.cancelCalled v)
      · have hin : v ∈ (requestClose env s (arr.getD i 0)).st.runningCancelAction :=
          hrc.2.2.2 h1
        have h2 : res.2.1.count (Ev.cancelCalled v) = 0 := ihres.1 hin
        have h3 := hrc.1
        omega
      · have h2 := ihres.2.1
        omega
    · intro htot
      by_cases h1 : 1 ≤ (requestClose env s (arr.getD i 0)).evs.count (Ev.cancelCalled v)
      · exact hmono2 (hrc.2.2.2 h1)
      · have h2 : 1 ≤ res.2.1.count (Ev.cancelCalled v) := by omega
        exact ihres.2.2 h2
  | case2 s arr i hi w r =>
    rename_i hret
    exact absurd (requestClose_ret env s (arr.getD i 0)) hret
  | case3 s arr i =>
    rename_i hi
    unfold processLoop
    rw [dif_neg hi]
    refine ⟨fun _ => rfl, by simp, fun h1 => ?_⟩
    exfalso
    simp at h1

theorem processCloseWatchers_running_mono (env : Env) (s : St) :
    s.runningCancelAction ⊆ (processCloseWatchers env s).1.runningCancelAction := by
  unfold processCloseWatchers
  dsimp only
  by_cases hg : s.groups.length > 0
  · rw [if_pos hg]
    have h := processLoop_running_mono env
      { s with groups := s.groups.dropLast ++ [(s.groups.getLastD []).reverse] }
      ((s.groups.getLastD []).reverse) 0
    split
    · exact h
    · exact h
  · rw [if_neg hg]
    split
    · exact fun x hx => hx
    · exact fun x hx => hx

theorem processCloseWatchers_cancelCount (env : Env) (s : St) (v : Nat) :
    ((v ∈ s.runningCancelAction →
      (processCloseWatchers env s).2.1.count (Ev.cancelCalled v) = 0)) ∧
    ((processCloseWatchers env s).2.1.count (Ev.cancelCalled v) ≤ 1) ∧
    (1 ≤ (processCloseWatchers env s).2.1.count (Ev.cancelCalled v) →
      v ∈ (processCloseWatchers env s).1.runningCancelAction) := by
  unfold processCloseWatchers
  dsimp only
  by_cases hg : s.groups.length > 0
  · rw [if_pos hg]
    have h := processLoop_cancelCount env v
      { s with groups := s.groups.dropLast ++ [(s.groups.getLastD []).reverse] }
      ((s.groups.getLastD []).reverse) 0
    split
    · exact ⟨h.1, h.2.1, h.2.2⟩
    · exact ⟨h.1, h.2.1, h.2.2⟩
  · rw [if_neg hg]
    split
    · refine ⟨fun _ => rfl, by simp, fun h1 => ?_⟩
      exfalso
      simp at h1
    · refine ⟨fun _ => rfl, by simp, fun h1 => ?_⟩
      exfalso
      simp at h1

end CloseWatcherModel

namespace CloseWatcherModel

theorem runOp_running_mono (env : Env) (s : St) (op : Op) :
    s.runningCancelAction ⊆ (runOp env s op).1.runningCancelAction := by
  cases op with
  | opRegister w =>
    show s.runningCancelAction ⊆ (register s w).runningCancelAction
    rw [register_running]
    exact fun x hx => hx
  | opDestroy w =>
    show s.runningCancelAction ⊆ (destroy s w).runningCancelAction
    rw [destroy_running]
    exact fun x hx => hx
  | opClose w =>
    show s.runningCancelAction ⊆ (close env s w).1.runningCancelAction
    rw [close_running]
    exact fun x hx => hx
  | opRequestClose w =>
    exact requestClose_running_mono env s w
  | opDispatch =>
    exact processCloseWatchers_running_mono env s
  | opNotify e =>
    show s.runningCancelAction ⊆ (notify e s).runningCancelAction
    rw [notify_running]
    exact fun x hx => hx

theorem runOp_cancelCount (env : Env) (s : St) (op : Op) (v : Nat) :
    ((v ∈ s.runningCancelAction →
      (runOp env s op).2.count (Ev.cancelCalled v) = 0)) ∧
    ((runOp env s op).2.count (Ev.cancelCalled v) ≤ 1) ∧
    (1 ≤ (runOp env s op).2.count (Ev.cancelCalled v) →
      v ∈ (runOp env s op).1.runningCancelAction) := by
  cases op with
  | opRegister w =>
    exact ⟨fun _ => rfl, by simp [runOp], fun h1 => by simp [runOp] at h1⟩
  | opDestroy w =>
    exact ⟨fun _ => rfl, by simp [runOp], fun h1 => by simp [runOp] at h1⟩
  | opClose w =>
    have hz : (runOp env s (Op.opClose w)).2.count (Ev.cancelCalled v) = 0 := by
      show (close env s w).2.count (Ev.cancelCalled v) = 0
      unfold close
      split <;> simp
    refine ⟨fun _ => hz, by rw [hz]; exact Nat.zero_le 1, fun h1 => ?_⟩
    exfalso
    rw [hz] at h1
    exact absurd h1 (by omega)
  | opRequestClose w =>
    have hrc := requestClose_cancelCount env s w v
    refine ⟨?_, hrc.1, hrc.2.2.2⟩
    intro hv
    by_cases hvw : v = w
    · subst hvw
      exact hrc.2.2.1 hv
    · exact hrc.2.1 hvw
  | opDispatch =>
    exact processCloseWatchers_cancelCount env s v
  | opNotify e =>
    exact ⟨fun _ => rfl, by simp [runOp], fun h1 => by simp [runOp] at h1⟩

theorem runOps_running_mono (env : Env) (ops : List Op) : ∀ (s : St),
    s.runningCancelAction ⊆ (runOps env s ops).1.runningCancelAction := by
  induction ops with
  | nil => exact fun s x hx => hx
  | cons op ops ih =>
    intro s
    exact List.Subset.trans (runOp_running_mono env s op) (ih (runOp env s op).1)

theorem runOps_cancelCount (env : Env) (v : Nat) (ops : List Op) : ∀ (s : St),
    ((v ∈ s.runningCancelAction →
      (runOps env s ops).2.count (Ev.cancelCalled v) = 0)) ∧
    ((runOps env s ops).2.count (Ev.cancelCalled v) ≤ 1) ∧
    (1 ≤ (runOps env s ops).2.count (Ev.cancelCalled v) →
      v ∈ (runOps env s ops).1.runningCancelAction) := by
  induction ops with
  | nil =>
    intro s
    refine ⟨fun _ => rfl, by simp [runOps], fun h1 => ?_⟩
    exfalso
    simp [runOps] at h1
  | cons op ops ih =>
    intro s
    have h1 := runOp_cancelCount env s op v
    have hmono := runOp_running_mono env s op
    have ihs := ih (runOp env s op).1
    have hmono2 := runOps_running_mono env ops (runOp env s op).1
    have htr : (runOps env s (op :: ops)).2 =
        (runOp env s op).2 ++ (runOps env (runOp env s op).1 ops).2 := rfl
    have hst : (runOps env s (op :: ops)).1 = (runOps env (runOp env s op).1 ops).1 := rfl
    rw [htr, hst, List.count_append]
    refine ⟨?_, ?_, ?_⟩
    · intro hv
      rw [h1.1 hv, ihs.1 (hmono hv)]
    · by_cases hfirst : 1 ≤ (runOp env s op).2.count (Ev.cancelCalled v)
      · have hin := h1.2.2 hfirst
        have hz := ihs.1 hin
        have := h1.2.1
        omega
      · have := ihs.2.1
        omega
    · intro htot
      by_cases hfirst : 1 ≤ (runOp env s op).2.count (Ev.cancelCalled v)
      · exact hmono2 (h1.2.2 hfirst)
      · have h2 : 1 ≤ (runOps env (runOp env s op).1 ops).2.count (Ev.cancelCalled v) := by
          omega
        exact ihs.2.2 h2


namespace CloseWatcherModel

/-! ### Supporting lemmas for the claims -/

theorem registerAll_single_aux (ws : List Nat) : ∀ (s : St) (g : List Nat),
    s.allowedNumberOfGroups = 1 → s.groups = [g] →
    (registerAll s ws).groups = [g ++ ws] := by
  induction ws with
  | nil =>
    intro s g _ hg
    simpa [registerAll] using hg
  | cons w ws ih =>
    intro s g hall hg
    have h1 : (register s w).allowedNumberOfGroups = 1 := by rw [register_allowed, hall]
    have h2 : (register s w).groups = [g ++ [w]] := by
      unfold register
      rw [hall, hg]
      simp
    have h3 := ih (register s w) (g ++ [w]) h1 h2
    have h4 : registerAll s (w :: ws) = registerAll (register s w) ws := rfl
    rw [h4, h3]
    simp

theorem c1_support_trace (env : Env) (s : St) (gs : List (List Nat)) (g : List Nat)
    (hgroups : s.groups = gs ++ [g]) (hc : ∀ w ∈ g, env.cancelReturns w = true) :
    rcCalls (processCloseWatchers env s).2.1 = g.reverse := by
  have hlen : s.groups.length > 0 := by rw [hgroups]; simp
  have hlast : s.groups.getLastD [] = g := by
    rw [hgroups]
    exact List.getLastD_concat [] g gs
  show rcCalls (processCloseWatchers env s).2.1 = g.reverse
  unfold processCloseWatchers
  dsimp only
  rw [if_pos hlen, hlast]
  rw [processLoop_rcCalls env _ (g.reverse) 0
    (fun v hv => hc v (List.mem_reverse.mp hv))]
  simp

end CloseWatcherModel

namespace CloseWatcherModel

/-! ### The claims -/

/-- C1 (corrected): when no registration is removed during the dispatch (here:
every member's `cancelAction` returns `true`), `requestClose()` is called on
each member of the most-recently-created group in strictly reverse
registration order. -/
theorem c1_dispatch_reverse_order (env : Env) (s : St) (gs : List (List Nat))
    (g : List Nat) (hgroups : s.groups = gs ++ [g])
    (hc : ∀ w ∈ g, env.cancelReturns w = true) :
    rcCalls (processCloseWatchers env s).2.1 = g.reverse :=
  c1_support_trace env s gs g hgroups hc

/-- C1 witness: for the group `[1, 2]` with suppressing cancel actions, the
dispatch calls `requestClose` on 2 and then on 1. -/
theorem c1_dispatch_reverse_order_witness :
    s12.groups = [] ++ [[1, 2]] ∧ (∀ w ∈ ([1, 2] : List Nat), envAllTrue.cancelReturns w = true) ∧
    rcCalls (processCloseWatchers envAllTrue s12).2.1 = [2, 1] :=
  ⟨rfl, by decide,
    c1_dispatch_reverse_order envAllTrue s12 [] [1, 2] rfl (by decide)⟩

/-- C1 counterexample: with groups `[[1, 2]]`, if watcher 2's cancel action
returns `false` (so 2 closes itself mid-iteration), `requestClose` is never
called on watcher 1, although no call returned `false` — the live-array
iteration skips it.  This refutes the claim that dispatch always reaches
every member in reverse order. -/
theorem c1_counterexample :
    s12.groups = [[1, 2]] ∧
    envOnly1True.cancelReturns 2 = false ∧
    (processCloseWatchers envOnly1True s12).2.1 =
      [Ev.requestCloseCalled 2, Ev.cancelCalled 2, Ev.closeCalled 2] ∧
    Ev.requestCloseCalled 1 ∉ (processCloseWatchers envOnly1True s12).2.1 := by
  have h : (processCloseWatchers envOnly1True s12).2.1 =
      [Ev.requestCloseCalled 2, Ev.cancelCalled 2, Ev.closeCalled 2] := by
    simp [processCloseWatchers, processLoop, requestClose, close, destroy, destroyLoop,
      isActive, s12, register, initSt, envOnly1True]
  refine ⟨rfl, rfl, h, ?_⟩
  rw [h]
  decide

/-- C2: `requestClose()` returns `true` in every state (active, inactive, or
guard set), and consequently the dispatcher's early-exit-on-false branch is
unreachable: the dispatch loop is extensionally equal to the same loop with
the `break` removed. -/
theorem c2_requestClose_always_true :
    (∀ (env : Env) (s : St) (w : Nat), (requestClose env s w).ret = true) ∧
    (∀ (env : Env) (s : St) (arr : List Nat) (i : Nat),
      processLoop env s arr i = processLoopNoExit env s arr i) :=
  ⟨requestClose_ret, processLoop_eq_noExit⟩

/-- C3 (corrected): on an active registration with the guard clear,
`requestClose()` invokes `cancelAction`; if `cancelAction` returns `false`
**and the window still has a UI context**, the registration is closed
(removed, `closeAction` invoked exactly once); if `cancelAction` returns
`true` it stays active, untouched, with `closeAction` not invoked. -/
theorem c3_requestClose_cancel (env : Env) (s : St) (w : Nat) (hr : Reachable s)
    (ha : isActive s w = true) (hg : w ∉ s.runningCancelAction) :
    Ev.cancelCalled w ∈ (requestClose env s w).evs ∧
    (env.cancelReturns w = false → env.defaultView = true →
      isActive (requestClose env s w).st w = false ∧
      (requestClose env s w).evs.count (Ev.closeCalled w) = 1) ∧
    (env.cancelReturns w = true →
      isActive (requestClose env s w).st w = true ∧
      Ev.closeCalled w ∉ (requestClose env s w).evs ∧
      (requestClose env s w).st.groups = s.groups) := by
  have hinv := (reachable_inv s hr).1
  have hgc : s.runningCancelAction.contains w = false := by simpa using hg
  cases hc : env.cancelReturns w with
  | true =>
    rw [requestClose_of_cancel_true env s w ha hgc hc]
    refine ⟨by simp, ?_, ?_⟩
    · intro hf
      exact absurd hf (by decide)
    · intro _
      exact ⟨ha, by simp, rfl⟩
  | false =>
    rw [requestClose_of_cancel_false env s w ha hgc hc]
    dsimp only
    by_cases hv : env.defaultView = true
    · rw [close_of_active env
        { s with runningCancelAction := w :: s.runningCancelAction } w ha hv]
      refine ⟨by simp, ?_, ?_⟩
      · intro _ _
        exact ⟨isActive_destroy
          { s with runningCancelAction := w :: s.runningCancelAction } w
          hinv.1 (hinv.2 w), by simp⟩
      · intro ht
        exact absurd ht (by decide)
    · have hvF : env.defaultView = false := by
        revert hv
        cases env.defaultView <;> simp
      rw [close_of_noView env
        { s with runningCancelAction := w :: s.runningCancelAction } w hvF]
      refine ⟨by simp, ?_, ?_⟩
      · intro _ hvT
        exact absurd (hvF.symm.trans hvT) (by decide)
      · intro ht
        exact absurd ht (by decide)

/-- C3 witness: watcher 1 active and unguarded, cancel action returns
`false`, UI context present: the registration ends inactive and
`closeAction` ran exactly once. -/
theorem c3_requestClose_cancel_witness :
    isActive s1reg 1 = true ∧ (1 ∉ s1reg.runningCancelAction) ∧
    envAllFalseView.cancelReturns 1 = false ∧ envAllFalseView.defaultView = true ∧
    (isActive (requestClose envAllFalseView s1reg 1).st 1 = false ∧
      (requestClose envAllFalseView s1reg 1).evs.count (Ev.closeCalled 1) = 1) := by
  have R : Reachable s1reg :=
    Reachable.register initSt 1 Reachable.init (by decide) (by decide)
  exact ⟨by decide, by decide, rfl, rfl,
    (c3_requestClose_cancel envAllFalseView s1reg 1 R (by decide) (by decide)).2.1 rfl rfl⟩

/-- C3 counterexample: with the UI context gone (`document.defaultView`
absent), an active unguarded registration whose cancel action returns
`false` is **not** closed by `requestClose()`: it stays active and
`closeAction` is never invoked, refuting the claim as stated. -/
theorem c3_counterexample :
    isActive s1reg 1 = true ∧ (1 ∉ s1reg.runningCancelAction) ∧
    envFalseNoView.cancelReturns 1 = false ∧
    Ev.cancelCalled 1 ∈ (requestClose envFalseNoView s1reg 1).evs ∧
    isActive (requestClose envFalseNoView s1reg 1).st 1 = true ∧
    Ev.closeCalled 1 ∉ (requestClose envFalseNoView s1reg 1).evs := by
  decide

/-- C4: placement rule — a new registration starts a new singleton group
when the group count is below `allowedNumberOfGroups`, otherwise it is
appended to the most recent group; with `allowedNumberOfGroups = 1` every
registration sequence lands in one group in registration order. -/
theorem c4_placement (s : St) (w : Nat) (ws : List Nat) :
    (s.groups.length < s.allowedNumberOfGroups →
      register s w = { s with groups := s.groups ++ [[w]] }) ∧
    (¬ s.groups.length < s.allowedNumberOfGroups →
      register s w = { s with groups :=
        s.groups.dropLast ++ [s.groups.getLastD [] ++ [w]] }) ∧
    (ws ≠ [] → (registerAll initSt ws).groups = [ws]) := by
  refine ⟨fun h => by unfold register; rw [if_pos h],
    fun h => by unfold register; rw [if_neg h], fun hne => ?_⟩
  cases ws with
  | nil => exact absurd rfl hne
  | cons w0 ws0 =>
    have h3 := registerAll_single_aux ws0 (register initSt w0) [w0] rfl rfl
    have h4 : registerAll initSt (w0 :: ws0) = registerAll (register initSt w0) ws0 := rfl
    rw [h4, h3]
    simp

/-- C4 witness: at the one-group state `[[1, 2]]` with budget 1, a new
registration folds into the existing group; and registering 1 then 2 from
scratch yields the single group `[1, 2]`. -/
theorem c4_placement_witness :
    (¬ s12.groups.length < s12.allowedNumberOfGroups) ∧
    register s12 3 = { s12 with groups := [[1, 2, 3]] } ∧
    ([1, 2] : List Nat) ≠ [] ∧
    (registerAll initSt [1, 2]).groups = [[1, 2]] := by
  refine ⟨by decide, ?_, by decide, (c4_placement s12 3 [1, 2]).2.2 (by decide)⟩
  have h := (c4_placement s12 3 [1, 2]).2.1 (by decide)
  rw [h]
  rfl

/-- C5 (code bug): dispatching a dismissal signal permanently reverses the
surviving members of the latest group, because the source calls
`Array.prototype.reverse` — which mutates in place — on the live group
array: from `[[1, 2]]` (registration order) the groups become `[[2, 1]]`. -/
theorem c5_dispatch_reverses_group :
    s12.groups = [[1, 2]] ∧
    (∀ w ∈ ([1, 2] : List Nat), envAllTrue.cancelReturns w = true) ∧
    (processCloseWatchers envAllTrue s12).1.groups = [[2, 1]] := by
  refine ⟨rfl, by decide, ?_⟩
  simp [processCloseWatchers, processLoop, requestClose, close, destroy, destroyLoop,
    isActive, s12, register, initSt, envAllTrue]

/-- C6: on every reachable state `allowedNumberOfGroups ≥ 1`, and a dispatch
decrements it by exactly 1 when it exceeds 1 and otherwise leaves it at 1. -/
theorem c6_allowed_decrement (env : Env) (s : St) (hr : Reachable s) :
    1 ≤ s.allowedNumberOfGroups ∧
    (processCloseWatchers env s).1.allowedNumberOfGroups =
      (if 1 < s.allowedNumberOfGroups then s.allowedNumberOfGroups - 1 else 1) := by
  have h := (reachable_inv s hr).2
  refine ⟨h, ?_⟩
  rw [processCloseWatchers_allowed]
  by_cases h1 : 1 < s.allowedNumberOfGroups
  · rw [if_pos h1, if_pos h1]
  · rw [if_neg h1, if_neg h1]
    omega

/-- C6 witness: at the initial state the budget is 1 and stays 1 across a
dispatch. -/
theorem c6_allowed_decrement_witness :
    Reachable initSt ∧
    (1 ≤ initSt.allowedNumberOfGroups ∧
      (processCloseWatchers envAllTrue initSt).1.allowedNumberOfGroups =
        (if 1 < initSt.allowedNumberOfGroups then initSt.allowedNumberOfGroups - 1 else 1)) :=
  ⟨Reachable.init, c6_allowed_decrement envAllTrue initSt Reachable.init⟩

/-- C7: a qualifying trusted activation with the one-shot flag armed raises
`allowedNumberOfGroups` by exactly 1 and disarms the flag; a second
qualifying activation before re-arming leaves the budget unchanged. -/
theorem c7_notify_increment (e e' : InputEvent) (s : St) (hq : qualifying e = true)
    (hq' : qualifying e' = true) (hflag : s.nextUserInteractionAllowsAnewGroup = true) :
    (notify e s).allowedNumberOfGroups = s.allowedNumberOfGroups + 1 ∧
    (notify e s).nextUserInteractionAllowsAnewGroup = false ∧
    (notify e' (notify e s)).allowedNumberOfGroups = s.allowedNumberOfGroups + 1 := by
  rw [notify_of_qualifying e s hq]
  rw [notify_of_qualifying e' _ hq']
  simp [hflag]

/-- C7 witness: a trusted touch-style activation at the initial state raises
the budget 1 → 2 and disarms the flag; a second trusted keyboard activation
leaves it at 2. -/
theorem c7_notify_increment_witness :
    qualifying evTouch = true ∧ qualifying evKeyA = true ∧
    initSt.nextUserInteractionAllowsAnewGroup = true ∧
    ((notify evTouch initSt).allowedNumberOfGroups = initSt.allowedNumberOfGroups + 1 ∧
      (notify evTouch initSt).nextUserInteractionAllowsAnewGroup = false ∧
      (notify evKeyA (notify evTouch initSt)).allowedNumberOfGroups =
        initSt.allowedNumberOfGroups + 1) :=
  ⟨by decide, by decide, rfl,
    c7_notify_increment evTouch evKeyA initSt (by decide) (by decide) rfl⟩

/-- C8: once `requestClose()` runs on an active registration its guard is
set; the guard is never reset by any operation sequence; a `requestClose()`
on a guarded registration is a pure no-op that still returns `true`; and
`cancelAction` runs at most once over any operation sequence (never, if the
guard is already set). -/
theorem c8_guard_once (env : Env) (s : St) (w : Nat) (ops : List Op) :
    (isActive s w = true → w ∈ (requestClose env s w).st.runningCancelAction) ∧
    (w ∈ s.runningCancelAction →
      requestClose env s w = ⟨s, [Ev.requestCloseCalled w], true, false⟩) ∧
    s.runningCancelAction ⊆ (runOps env s ops).1.runningCancelAction ∧
    (w ∈ s.runningCancelAction → (runOps env s ops).2.count (Ev.cancelCalled w) = 0) ∧
    (runOps env s ops).2.count (Ev.cancelCalled w) ≤ 1 := by
  have hc := runOps_cancelCount env w ops s
  refine ⟨?_, ?_, runOps_running_mono env ops s, hc.1, hc.2.1⟩
  · intro ha
    by_cases hrun : s.runningCancelAction.contains w = true
    · rw [requestClose_of_running env s w hrun]
      simpa using hrun
    · have hrF : s.runningCancelAction.contains w = false := by
        revert hrun
        cases s.runningCancelAction.contains w <;> simp
      cases hcan : env.cancelReturns w with
      | true =>
        rw [requestClose_of_cancel_true env s w ha hrF hcan]
        exact List.mem_cons_self _ _
      | false =>
        rw [requestClose_of_cancel_false env s w ha hrF hcan]
        dsimp only
        rw [close_running]
        exact List.mem_cons_self _ _
  · intro hmem
    exact requestClose_of_running env s w (by simpa using hmem)

/-- C8 witness: with watcher 1 active but guarded, a `requestClose` followed
by a dispatch never invokes its cancel action. -/
theorem c8_guard_once_witness :
    (1 ∈ sGuard.runningCancelAction) ∧
    (runOps envAllTrue sGuard opsSample).2.count (Ev.cancelCalled 1) = 0 :=
  ⟨by decide, (c8_guard_once envAllTrue sGuard 1 opsSample).2.2.2.1 (by decide)⟩

/-- C9: `destroy()` is idempotent on reachable states, a no-op on inactive
registrations, and a successful destroy removes the registration from its
group and prunes the group if it became empty (no empty group survives). -/
theorem c9_destroy_idempotent (s : St) (w : Nat) (hr : Reachable s) :
    destroy (destroy s w) w = destroy s w ∧
    (isActive s w = false → destroy s w = s) ∧
    (destroy s w).groups = removePruned w s.groups ∧
    (∀ g ∈ (destroy s w).groups, w ∉ g ∧ g ≠ []) := by
  have hinv := (reachable_inv s hr).1
  refine ⟨destroy_idem s w hinv.1 (hinv.2 w),
    fun hia => destroy_of_inactive s w hinv.1 hia,
    destroy_groups_wf s w hinv.1 (hinv.2 w), ?_⟩
  intro g hg
  rw [destroy_groups_wf s w hinv.1 (hinv.2 w)] at hg
  refine ⟨removePruned_not_mem w s.groups ?_ g hg, removePruned_ne_nil w s.groups g hg⟩
  intro g2 hg2
  exact Nat.le_trans (count_le_occurs w s.groups g2 hg2) (hinv.2 w)

/-- C9 witness: destroying watcher 2 of the two-watcher group twice equals
destroying it once. -/
theorem c9_destroy_idempotent_witness :
    Reachable s12 ∧
    destroy (destroy s12 2) 2 = destroy s12 2 := by
  have R : Reachable s12 :=
    Reachable.register (register initSt 1) 2
      (Reachable.register initSt 1 Reachable.init (by decide) (by decide))
      (by decide) (by decide)
  exact ⟨R, (c9_destroy_idempotent s12 2 R).1⟩

/-- C10: `close()` is a no-op (state unchanged, `closeAction` not invoked)
on an inactive registration or when the UI context is gone; on an active
registration with a UI context it destroys the registration (which removes
it from its group, pruning empties) and invokes `closeAction` exactly once. -/
theorem c10_close_noop_or_close (env : Env) (s : St) (w : Nat) (hr : Reachable s) :
    (isActive s w = false → close env s w = (s, [])) ∧
    (env.defaultView = false → close env s w = (s, [])) ∧
    (isActive s w = true → env.defaultView = true →
      close env s w = (destroy s w, [Ev.closeCalled w]) ∧
      isActive (close env s w).1 w = false ∧
      (close env s w).2.count (Ev.closeCalled w) = 1 ∧
      NoEmpty (close env s w).1.groups) := by
  have hinv := (reachable_inv s hr).1
  refine ⟨close_of_inactive env s w, close_of_noView env s w, fun ha hv => ?_⟩
  rw [close_of_active env s w ha hv]
  exact ⟨rfl, isActive_destroy s w hinv.1 (hinv.2 w), by simp,
    noEmpty_destroy s w hinv.1 (hinv.2 w)⟩

/-- C10 witness: closing active watcher 1 of the two-watcher group with a UI
context present fires `closeAction` once and deactivates it. -/
theorem c10_close_noop_or_close_witness :
    Reachable s12 ∧ isActive s12 1 = true ∧ envAllTrue.defaultView = true ∧
    (close envAllTrue s12 1 = (destroy s12 1, [Ev.closeCalled 1]) ∧
      isActive (close envAllTrue s12 1).1 1 = false ∧
      (close envAllTrue s12 1).2.count (Ev.closeCalled 1) = 1 ∧
      NoEmpty (close envAllTrue s12 1).1.groups) := by
  have R : Reachable s12 :=
    Reachable.register (register initSt 1) 2
      (Reachable.register initSt 1 Reachable.init (by decide) (by decide))
      (by decide) (by decide)
  exact ⟨R, by decide, rfl,
    (c10_close_noop_or_close envAllTrue s12 1 R).2.2 (by decide) rfl⟩

end CloseWatcherModel
